import Mathlib

/-!
Shallow embedding of the autoCommit-CLI commit plan generation and execution
engine (src/core/date-calculator.ts, src/core/commit-generator.ts,
src/core/git-service.ts, src/types/index.ts).

Modelling conventions:
* A calendar day is its serial number (days since 1970-01-01); `getDay`
  reproduces date-fns getDay via (d + 4) % 7 (1970-01-01 was a Thursday).
* A timestamp (JS Date) is its epoch value in milliseconds, as produced by
  setHours / setMinutes / setSeconds / setMilliseconds on a midnight date.
* Math.random() is an injected stream rnd : ℕ → ℚ of draws in [0,1),
  consumed left to right in source order (one index per call site hit).
* A thrown AutoCommitError is Except.error of its ErrorCode enum value.
* String-valued pieces no claim touches (CommitPlan.time, the rendered
  message, error message text) are omitted; each per-entry error string the
  code pushes is modelled by a RunError value recording which push happened.
* Array.prototype.sort with comparator (a, b) => a.date - b.date is modelled
  by a stable insertion sort on the date key (ES2019 requires sort to be
  stable, and all stable sorts by the same key agree extensionally).
-/

namespace AutoCommit

/-- Decidable equality for Except values, used to settle concrete runs of the
    model by `decide`. -/
def exceptDecEq {ε α : Type} [DecidableEq ε] [DecidableEq α] :
    DecidableEq (Except ε α) := fun a b =>
  match a, b with
  | .ok x, .ok y =>
    if h : x = y then .isTrue (congrArg Except.ok h)
    else .isFalse (fun hh => h (Except.ok.inj hh))
  | .error x, .error y =>
    if h : x = y then .isTrue (congrArg Except.error h)
    else .isFalse (fun hh => h (Except.error.inj hh))
  | .ok _, .error _ => .isFalse (fun hh => Except.noConfusion hh)
  | .error _, .ok _ => .isFalse (fun hh => Except.noConfusion hh)

instance {ε α : Type} [DecidableEq ε] [DecidableEq α] : DecidableEq (Except ε α) :=
  exceptDecEq

/-- Error codes from src/types/index.ts (enum ErrorCode). -/
inductive ErrorCode where
  | NOT_A_GIT_REPO
  | UNCOMMITTED_CHANGES
  | INVALID_DATE_RANGE
  | INVALID_CONFIG
  | GIT_OPERATION_FAILED
  | NETWORK_ERROR
  | PERMISSION_DENIED
  | USER_CANCELLED
  | UNKNOWN
  deriving DecidableEq

/-- A parsed "HH:MM" time string (DateCalculator.parseTime output).
    The HH:MM parse itself is the identity on these two components. -/
structure TimeOfDay where
  hours : ℕ
  minutes : ℕ
  deriving DecidableEq

/-- The commitsPerDay sub-object of the Zod ConfigSchema. -/
structure CommitsPerDay where
  min : ℕ
  max : ℕ
  deriving DecidableEq

/-- Config (src/types/index.ts ConfigSchema), restricted to the fields the
    plan builder and execution engine read.  startDate/endDate are day serial
    numbers (the parseISO result at local midnight); timeRange is flattened
    into its two parsed endpoints. -/
structure Config where
  startDate : ℕ
  endDate : ℕ
  commitsPerDay : CommitsPerDay
  skipDays : List ℕ
  skipProbability : ℚ
  timeRangeStart : TimeOfDay
  timeRangeEnd : TimeOfDay
  autoPush : Bool
  deriving DecidableEq

/-- CommitPlan (src/types/index.ts): one planned commit.  `date` is the epoch
    millisecond timestamp (an integer, as Date.getTime yields); `index` the
    0-based generation index.  The two rendered string fields (time, message)
    carry no claim and are omitted. -/
structure CommitPlan where
  date : ℤ
  index : ℕ
  deriving DecidableEq

/-- Math.floor (r * z) for a rational r and an integer z, computed on the
    numerator/denominator representation of r: ⌊r·z⌋ = (r.num * z) / r.den,
    where `/` on ℤ is floor division by the positive denominator (exactly
    what Math.floor of the real quotient yields).  The bridge lemma
    `floorRatMul_eq` below proves this equal to ⌊r * z⌋. -/
def floorRatMul (r : ℚ) (z : ℤ) : ℤ :=
  r.num * z / (r.den : ℤ)

/-- The common `Math.floor(r * (hi - lo + 1)) + lo` pattern used by both
    DateCalculator.getRandomCommitCount and the randomMinutes draw of
    DateCalculator.generateRandomTime. -/
def randomIntInRange (r : ℚ) (lo hi : ℤ) : ℤ :=
  floorRatMul r (hi - lo + 1) + lo

/-- DateCalculator.getRandomCommitCount. -/
def getRandomCommitCount (min max : ℕ) (r : ℚ) : ℤ :=
  randomIntInRange r min max

/-- DateCalculator.shouldSkipDay: Math.random() < probability. -/
def shouldSkipDay (probability : ℚ) (r : ℚ) : Bool :=
  decide (r < probability)

/-- Result of DateCalculator.generateRandomTime.  Fields are integers (JS
    numbers); for a valid time window they are the nonnegative clock
    components. -/
structure HMS where
  hours : ℤ
  minutes : ℤ
  seconds : ℤ
  deriving DecidableEq

/-- Minutes-from-midnight of a parsed time (start.hours * 60 + start.minutes
    in generateRandomTime). -/
def minutesOf (t : TimeOfDay) : ℕ :=
  t.hours * 60 + t.minutes

/-- DateCalculator.generateRandomTime: draws a minute uniformly from
    [startMinutes, endMinutes] inclusive and a second from [0, 59].
    `rMin` and `rSec` are the two Math.random() draws, in call order.
    Int `/` and `%` agree with the JS Math.floor quotient and remainder on
    the nonnegative randomMinutes every valid time window yields. -/
def generateRandomTime (startT endT : TimeOfDay) (rMin rSec : ℚ) : HMS :=
  let startMinutes := minutesOf startT
  let endMinutes := minutesOf endT
  let randomMinutes := randomIntInRange rMin startMinutes endMinutes
  let randomSeconds := floorRatMul rSec 60
  { hours := randomMinutes / 60
    minutes := randomMinutes % 60
    seconds := randomSeconds }

/-- date-fns getDay on a day serial number: 0 = Sunday … 6 = Saturday.
    Day 0 (1970-01-01) was a Thursday, weekday 4. -/
def getDay (d : ℕ) : ℕ :=
  (d + 4) % 7

/-- DateCalculator.validateDateRange.  Date-string parse failure is out of
    scope of the serial-number model; the isAfter(start, end) check remains. -/
def validateDateRange (startDate endDate : ℕ) : Except ErrorCode Unit :=
  if endDate < startDate then .error .INVALID_DATE_RANGE else .ok ()

/-- DateCalculator.getDaysInRange: every day in [startDate, endDate]
    (eachDayOfInterval), minus the days whose weekday is in skipDays. -/
def getDaysInRange (startDate endDate : ℕ) (skipDays : List ℕ) :
    Except ErrorCode (List ℕ) :=
  match validateDateRange startDate endDate with
  | .error e => .error e
  | .ok _ =>
    .ok (((List.range (endDate + 1 - startDate)).map (fun i => startDate + i)).filter
      (fun d => !skipDays.contains (getDay d)))

/-- One iteration of the inner commit loop of
    DateCalculator.generateCommitPlan: generateRandomTime consumes draws
    rnd p (minutes) and rnd (p+1) (seconds), setMilliseconds consumes
    rnd (p+2); the timestamp is day*86400000 + h*3600000 + m*60000 + s*1000
    + ms (setHours / setMinutes / setSeconds / setMilliseconds on the
    midnight date `day`). -/
def genCommit (cfg : Config) (day : ℕ) (rnd : ℕ → ℚ) (p : ℕ)
    (commitIndex : ℕ) : CommitPlan :=
  let t := generateRandomTime cfg.timeRangeStart cfg.timeRangeEnd (rnd p) (rnd (p + 1))
  let ms := floorRatMul (rnd (p + 2)) 1000
  { date := (day : ℤ) * 86400000 + t.hours * 3600000 + t.minutes * 60000 + t.seconds * 1000 + ms
    index := commitIndex }

/-- The `commitCount` local of the day loop: the value drawn for a surviving
    day whose skip draw sat at position p.  The `for (let i = 0; i <
    commitCount; i++)` loop runs commitCount.toNat times (zero times when the
    drawn count is not positive). -/
def commitCountAt (cfg : Config) (rnd : ℕ → ℚ) (p : ℕ) : ℕ :=
  (getRandomCommitCount cfg.commitsPerDay.min cfg.commitsPerDay.max (rnd (p + 1))).toNat

/-- The day loop of DateCalculator.generateCommitPlan, before sorting.
    `p` is the index of the next unconsumed random draw, `ci` the running
    commitIndex.  Per day: one skip draw; if not skipped, one commit-count
    draw, then three draws per generated commit. -/
def genDays (cfg : Config) (rnd : ℕ → ℚ) : List ℕ → ℕ → ℕ → List CommitPlan
  | [], _, _ => []
  | day :: rest, p, ci =>
    if shouldSkipDay cfg.skipProbability (rnd p) then
      genDays cfg rnd rest (p + 1) ci
    else
      ((List.range (commitCountAt cfg rnd p)).map
          (fun i => genCommit cfg day rnd (p + 2 + 3 * i) (ci + i)))
        ++ genDays cfg rnd rest (p + 2 + 3 * commitCountAt cfg rnd p)
            (ci + commitCountAt cfg rnd p)

/-- Stable insertion step for the sort comparator
    (a, b) => a.date.getTime() - b.date.getTime(): `x` goes in front of the
    first element whose date is not smaller, so among equal dates the earlier
    list element stays first. -/
def insertByDate (x : CommitPlan) : List CommitPlan → List CommitPlan
  | [] => [x]
  | y :: ys => if y.date < x.date then y :: insertByDate x ys else x :: y :: ys

/-- Stable sort by ascending date (plan.sort in generateCommitPlan). -/
def sortByDate : List CommitPlan → List CommitPlan
  | [] => []
  | x :: xs => insertByDate x (sortByDate xs)

/-- DateCalculator.generateCommitPlan. -/
def generateCommitPlan (cfg : Config) (rnd : ℕ → ℚ) :
    Except ErrorCode (List CommitPlan) :=
  match getDaysInRange cfg.startDate cfg.endDate cfg.skipDays with
  | .error e => .error e
  | .ok days => .ok (sortByDate (genDays cfg rnd days 0 0))

/-- Result record of DateCalculator.estimateCommitCount (Math.floor yields
    integers). -/
structure Estimate where
  min : ℤ
  max : ℤ
  expected : ℤ
  deriving DecidableEq

/-- Math.floor ((1 - p) * z / d) for d > 0, computed on the representation
    of p: as a (not necessarily reduced) fraction, 1 - p is
    (p.den - p.num) / p.den.  The bridge lemma `floorOneMinusMulDiv_eq`
    proves this equal to ⌊(1 - p) * z / d⌋. -/
def floorOneMinusMulDiv (p : ℚ) (z : ℤ) (d : ℕ) : ℤ :=
  ((p.den : ℤ) - p.num) * z / ((p.den : ℤ) * d)

/-- DateCalculator.estimateCommitCount, with
    effectiveDays = days.length * (1 - skipProbability).  Each field is
    Math.floor (effectiveDays * x) — respectively
    x = min, x = max, x = (min + max) / 2 — i.e.
    ⌊(1 - p) * (days.length * min)⌋, ⌊(1 - p) * (days.length * max)⌋ and
    ⌊(1 - p) * (days.length * (min + max)) / 2⌋ (see the source-form lemma
    estimateCommitCount_fields). -/
def estimateCommitCount (cfg : Config) : Except ErrorCode Estimate :=
  match getDaysInRange cfg.startDate cfg.endDate cfg.skipDays with
  | .error e => .error e
  | .ok days => .ok
    { min := floorOneMinusMulDiv cfg.skipProbability
        ((days.length : ℤ) * (cfg.commitsPerDay.min : ℤ)) 1
      max := floorOneMinusMulDiv cfg.skipProbability
        ((days.length : ℤ) * (cfg.commitsPerDay.max : ℤ)) 1
      expected := floorOneMinusMulDiv cfg.skipProbability
        ((days.length : ℤ) * ((cfg.commitsPerDay.min : ℤ) + (cfg.commitsPerDay.max : ℤ))) 2 }

/-- The random draws all lie in [0, 1), as Math.random() guarantees. -/
def ValidRand (rnd : ℕ → ℚ) : Prop :=
  ∀ n, 0 ≤ rnd n ∧ rnd n < 1

/-- The mutable fields of the CommitGenerator class
    (src/core/commit-generator.ts): `cancelled` and `generatedCommits`. -/
structure CommitGenerator where
  cancelled : Bool
  generatedCommits : ℕ
  deriving DecidableEq

/-- A fresh CommitGenerator, as built by the constructor. -/
def initGenerator : CommitGenerator :=
  { cancelled := false, generatedCommits := 0 }

/-- One entry of the errors array of generate().  The code pushes strings;
    each constructor records which push happened (the numeric payload of
    commitFailed is the 0-based plan position of the failed entry). -/
inductive RunError where
  | noCommitsNote
  | commitFailed (idx : ℕ)
  | pushFailed
  deriving DecidableEq

/-- GenerateResult (src/types/index.ts GenerateResult), minus the wall-clock
    `duration` field, which is not modelled. -/
structure GenerateResult where
  success : Bool
  totalCommits : ℕ
  startDate : ℕ
  endDate : ℕ
  errors : List RunError
  deriving DecidableEq

/-- Behaviour of the external collaborators during one generate() run:
    `repoValid i` drives gitService.validateRepo; `commitOk i` is whether the
    createCommit call for plan position i succeeds; `cancelledAt i` is the
    value of the cancelled flag when the loop checks it before entry i (the
    flag is written only by the external cancel() path after the reset at the
    top of generate); `pushOk` is whether gitService.push succeeds. -/
structure ExecEnv where
  repoValid : Bool
  commitOk : ℕ → Bool
  cancelledAt : ℕ → Bool
  pushOk : Bool

/-- What the commit loop of generate() produced.  `commitCalls` lists the
    plan positions for which gitService.createCommit was invoked;
    `progressCalls` the (current, total) argument pairs passed to onProgress;
    `cancelledExit` whether the loop ended in the USER_CANCELLED throw. -/
structure LoopOut where
  generatedCommits : ℕ
  errors : List RunError
  commitCalls : List ℕ
  progressCalls : List (ℕ × ℕ)
  cancelledExit : Bool
  deriving DecidableEq

/-- The `for (let i = 0; i < plan.length; i++)` loop of generate().
    `pending` is the number of entries not yet processed, `i` the current
    loop index (i = total - pending), `g` the current this.generatedCommits.
    Plan entries influence the loop only through their position, so the loop
    is indexed by position; both branches report progress (i+1, total). -/
def execLoop (env : ExecEnv) (total : ℕ) : ℕ → ℕ → ℕ → LoopOut
  | 0, _, g =>
    { generatedCommits := g, errors := [], commitCalls := [], progressCalls := []
      cancelledExit := false }
  | pending + 1, i, g =>
    if env.cancelledAt i then
      { generatedCommits := g, errors := [], commitCalls := [], progressCalls := []
        cancelledExit := true }
    else if env.commitOk i then
      let rest := execLoop env total pending (i + 1) (g + 1)
      { rest with
          commitCalls := i :: rest.commitCalls
          progressCalls := (i + 1, total) :: rest.progressCalls }
    else
      let rest := execLoop env total pending (i + 1) g
      { rest with
          errors := .commitFailed i :: rest.errors
          commitCalls := i :: rest.commitCalls
          progressCalls := (i + 1, total) :: rest.progressCalls }

/-- Everything one generate() call did and returned: final field state,
    the returned GenerateResult or thrown ErrorCode, and the calls made to
    the collaborators (`resetCalls` lists git reset invocations — generate
    itself never makes one; `pushCalls` counts gitService.push calls). -/
structure GenOutcome where
  state : CommitGenerator
  result : Except ErrorCode GenerateResult
  commitCalls : List ℕ
  progressCalls : List (ℕ × ℕ)
  pushCalls : ℕ
  resetCalls : List ℤ

/-- CommitGenerator.generate.  Resets cancelled/generatedCommits, validates
    the repository, builds the plan, returns early on an empty plan (with the
    informational note pushed onto the errors array), runs the commit loop,
    optionally pushes, and assembles the result with
    success = (errors.length === 0). -/
def generate (self : CommitGenerator) (cfg : Config) (rnd : ℕ → ℚ)
    (env : ExecEnv) : GenOutcome :=
  -- Reset state (this.cancelled = false; this.generatedCommits = 0)
  let self := { self with cancelled := false, generatedCommits := 0 }
  if !env.repoValid then
    { state := self, result := .error .NOT_A_GIT_REPO, commitCalls := []
      progressCalls := [], pushCalls := 0, resetCalls := [] }
  else
    match generateCommitPlan cfg rnd with
    | .error e =>
      { state := self, result := .error e, commitCalls := []
        progressCalls := [], pushCalls := 0, resetCalls := [] }
    | .ok plan =>
      if plan.length = 0 then
        { state := self
          result := .ok
            { success := true, totalCommits := 0, startDate := cfg.startDate
              endDate := cfg.endDate, errors := [.noCommitsNote] }
          commitCalls := [], progressCalls := [], pushCalls := 0, resetCalls := [] }
      else
        let out := execLoop env plan.length plan.length 0 0
        let self := { self with generatedCommits := out.generatedCommits }
        if out.cancelledExit then
          { state := self, result := .error .USER_CANCELLED
            commitCalls := out.commitCalls, progressCalls := out.progressCalls
            pushCalls := 0, resetCalls := [] }
        else
          let doPush := cfg.autoPush && decide (0 < out.generatedCommits)
          let pushErrors : List RunError :=
            if doPush && !env.pushOk then [.pushFailed] else []
          let errors := out.errors ++ pushErrors
          { state := self
            result := .ok
              { success := decide (errors.length = 0), totalCommits := out.generatedCommits
                startDate := cfg.startDate, endDate := cfg.endDate, errors := errors }
            commitCalls := out.commitCalls, progressCalls := out.progressCalls
            pushCalls := if doPush then 1 else 0, resetCalls := [] }

/-- GitService.rollback (src/core/git-service.ts).  `resetOk` is whether the
    underlying git reset succeeds; the second component lists the reset
    invocations actually attempted. -/
def gitRollback (count : ℤ) (resetOk : Bool) : Except ErrorCode Unit × List ℤ :=
  if count ≤ 0 then
    (.error .INVALID_CONFIG, [])
  else if resetOk then
    (.ok (), [count])
  else
    (.error .GIT_OPERATION_FAILED, [count])

/-- Outcome of CommitGenerator.rollback: the generator state afterwards, the
    returned/thrown value, and the git reset invocations attempted. -/
structure RollbackOutcome where
  state : CommitGenerator
  result : Except ErrorCode Unit
  resetCalls : List ℤ

/-- CommitGenerator.rollback (count ?? this.generatedCommits; only calls
    GitService.rollback when the count is positive, and resets
    generatedCommits to 0 only when that call succeeds). -/
def cgRollback (self : CommitGenerator) (count : Option ℤ) (resetOk : Bool) :
    RollbackOutcome :=
  let rollbackCount : ℤ := count.getD (self.generatedCommits : ℤ)
  if 0 < rollbackCount then
    match gitRollback rollbackCount resetOk with
    | (.ok _, calls) =>
      { state := { self with generatedCommits := 0 }, result := .ok ()
        resetCalls := calls }
    | (.error e, calls) =>
      { state := self, result := .error e, resetCalls := calls }
  else
    { state := self, result := .ok (), resetCalls := [] }

/-! Concrete inputs used to instantiate the theorems below on closed runs. -/

/-- The rational 1/2, given directly in lowest terms. -/
def ratHalf : ℚ := ⟨1, 2, by decide, Nat.coprime_one_left 2⟩

/-- The degenerate random stream that always draws 0. -/
def rndZero : ℕ → ℚ := fun _ => 0

/-- A random stream drawing 0 everywhere except 1/2 at position 3 — for a
    one-day, one-commit plan, position 3 is the seconds draw. -/
def rndHalfAtSec : ℕ → ℚ := fun n => if n = 3 then ratHalf else 0

/-- One day (1970-01-01), exactly one commit, degenerate 09:00–09:00 window. -/
def cfgOneDay : Config :=
  { startDate := 0, endDate := 0, commitsPerDay := ⟨1, 1⟩, skipDays := []
    skipProbability := 0, timeRangeStart := ⟨9, 0⟩, timeRangeEnd := ⟨9, 0⟩
    autoPush := false }

/-- One day, exactly two commits per day. -/
def cfgTwoPerDay : Config :=
  { startDate := 0, endDate := 0, commitsPerDay := ⟨2, 2⟩, skipDays := []
    skipProbability := 0, timeRangeStart := ⟨9, 0⟩, timeRangeEnd := ⟨9, 0⟩
    autoPush := false }

/-- Five days (1970-01-01 to 1970-01-05), one commit each. -/
def cfgFiveDays : Config :=
  { startDate := 0, endDate := 4, commitsPerDay := ⟨1, 1⟩, skipDays := []
    skipProbability := 0, timeRangeStart := ⟨9, 0⟩, timeRangeEnd := ⟨9, 0⟩
    autoPush := false }

/-- skipProbability = 1: every day is dropped, the plan comes out empty. -/
def cfgSkipAll : Config :=
  { startDate := 0, endDate := 0, commitsPerDay := ⟨1, 1⟩, skipDays := []
    skipProbability := 1, timeRangeStart := ⟨9, 0⟩, timeRangeEnd := ⟨9, 0⟩
    autoPush := false }

/-- Collaborators that always succeed, with no cancellation. -/
def envAllOk : ExecEnv :=
  { repoValid := true, commitOk := fun _ => true, cancelledAt := fun _ => false
    pushOk := true }

/-- Collaborators where only the first createCommit fails. -/
def envFailFirst : ExecEnv :=
  { repoValid := true, commitOk := fun i => decide (i ≠ 0)
    cancelledAt := fun _ => false, pushOk := true }

/-- Collaborators where cancellation is requested after two successful
    entries: the cancelled flag reads true from the check before entry 2 on. -/
def envCancelAtTwo : ExecEnv :=
  { repoValid := true, commitOk := fun _ => true
    cancelledAt := fun i => decide (2 ≤ i), pushOk := true }

/-- The ordering the spec asserts of a built plan: ascending by timestamp,
    ties broken by ascending sequenceIndex. -/
def PlanOrder (a b : CommitPlan) : Prop :=
  a.date < b.date ∨ (a.date = b.date ∧ a.index < b.index)

instance : DecidableRel PlanOrder := fun a b => by
  unfold PlanOrder; infer_instance

/-! ## Bridge and range lemmas for the floor helpers -/

theorem floorRatMul_eq (r : ℚ) (z : ℤ) : floorRatMul r z = ⌊r * (z : ℚ)⌋ := by
  have hz : r * (z : ℚ) = ((r.num * z : ℤ) : ℚ) / ((r.den : ℕ) : ℚ) := by
    conv_lhs => rw [← Rat.num_div_den r]
    push_cast
    ring
  rw [floorRatMul, hz, Rat.floor_intCast_div_natCast]

theorem floorRatMul_nonneg {r : ℚ} (hr0 : 0 ≤ r) {z : ℤ} (hz : 0 ≤ z) :
    0 ≤ floorRatMul r z := by
  rw [floorRatMul_eq]
  exact Int.floor_nonneg.mpr (mul_nonneg hr0 (by exact_mod_cast hz))

theorem floorRatMul_lt {r : ℚ} (hr1 : r < 1) {z : ℤ} (hz : 0 < z) :
    floorRatMul r z < z := by
  rw [floorRatMul_eq]
  have hzq : (0 : ℚ) < (z : ℚ) := by exact_mod_cast hz
  have : r * (z : ℚ) < (z : ℚ) := by nlinarith
  exact Int.floor_lt.mpr (by exact_mod_cast this)

theorem randomIntInRange_mem {r : ℚ} (hr0 : 0 ≤ r) (hr1 : r < 1) {lo hi : ℤ}
    (hlh : lo ≤ hi) :
    lo ≤ randomIntInRange r lo hi ∧ randomIntInRange r lo hi ≤ hi := by
  unfold randomIntInRange
  have h1 : 0 ≤ floorRatMul r (hi - lo + 1) := floorRatMul_nonneg hr0 (by omega)
  have h2 : floorRatMul r (hi - lo + 1) < hi - lo + 1 := floorRatMul_lt hr1 (by omega)
  omega

theorem getRandomCommitCount_const {r : ℚ} (hr0 : 0 ≤ r) (hr1 : r < 1) (k : ℕ) :
    getRandomCommitCount k k r = (k : ℤ) := by
  have := randomIntInRange_mem hr0 hr1 (le_refl (k : ℤ))
  unfold getRandomCommitCount at *
  omega

theorem floorOneMinusMulDiv_eq (p : ℚ) (z : ℤ) (d : ℕ) (hd : d ≠ 0) :
    floorOneMinusMulDiv p z d = ⌊(1 - p) * (z : ℚ) / (d : ℚ)⌋ := by
  have hden : ((p.den : ℚ)) ≠ 0 := Nat.cast_ne_zero.mpr p.den_nz
  have hdq : ((d : ℚ)) ≠ 0 := Nat.cast_ne_zero.mpr hd
  have hp : (1 - p) * (z : ℚ) / (d : ℚ)
      = ((((p.den : ℤ) - p.num) * z : ℤ) : ℚ) / ((p.den * d : ℕ) : ℚ) := by
    conv_lhs => rw [show p = (p.num : ℚ) / (p.den : ℚ) from (Rat.num_div_den p).symm]
    push_cast
    field_simp
    try ring
  rw [floorOneMinusMulDiv, hp, Rat.floor_intCast_div_natCast]
  push_cast
  ring

/-- Source-form restatement of estimateCommitCount: each field is the floor of
    effectiveDays * x for effectiveDays = days.length * (1 - skipProbability)
    and x = min, max, (min + max) / 2 respectively. -/
theorem estimateCommitCount_fields (cfg : Config) (days : List ℕ) (est : Estimate)
    (hd : getDaysInRange cfg.startDate cfg.endDate cfg.skipDays = .ok days)
    (h : estimateCommitCount cfg = .ok est) :
    est.min = ⌊(days.length : ℚ) * (1 - cfg.skipProbability) * (cfg.commitsPerDay.min : ℚ)⌋
    ∧ est.max = ⌊(days.length : ℚ) * (1 - cfg.skipProbability) * (cfg.commitsPerDay.max : ℚ)⌋
    ∧ est.expected = ⌊(days.length : ℚ) * (1 - cfg.skipProbability)
        * ((cfg.commitsPerDay.min : ℚ) + (cfg.commitsPerDay.max : ℚ)) / 2⌋ := by
  unfold estimateCommitCount at h
  rw [hd] at h
  cases h
  dsimp only
  refine ⟨?_, ?_, ?_⟩
  · rw [floorOneMinusMulDiv_eq _ _ 1 one_ne_zero]
    congr 1
    push_cast
    ring
  · rw [floorOneMinusMulDiv_eq _ _ 1 one_ne_zero]
    congr 1
    push_cast
    ring
  · rw [floorOneMinusMulDiv_eq _ _ 2 two_ne_zero]
    congr 1
    push_cast
    ring

/-- The all-zero stream is a valid random stream. -/
theorem validRand_rndZero : ValidRand rndZero :=
  fun _ => ⟨le_rfl, by norm_num [rndZero]⟩

/-! ## Stable sorting: the plan ordering invariant -/

theorem PlanOrder.date_le {a b : CommitPlan} (h : PlanOrder a b) : a.date ≤ b.date := by
  rcases h with h | ⟨h, _⟩
  · exact le_of_lt h
  · exact le_of_eq h

theorem mem_insertByDate {z x : CommitPlan} {l : List CommitPlan} :
    z ∈ insertByDate x l ↔ z = x ∨ z ∈ l := by
  induction l with
  | nil => simp [insertByDate]
  | cons y ys ih =>
    unfold insertByDate
    by_cases h : y.date < x.date
    · rw [if_pos h]
      simp only [List.mem_cons, ih]
      tauto
    · rw [if_neg h]
      simp only [List.mem_cons]

theorem insertByDate_perm (x : CommitPlan) (l : List CommitPlan) :
    (insertByDate x l).Perm (x :: l) := by
  induction l with
  | nil => simp [insertByDate]
  | cons y ys ih =>
    unfold insertByDate
    by_cases h : y.date < x.date
    · rw [if_pos h]
      exact (ih.cons y).trans (List.Perm.swap x y ys)
    · rw [if_neg h]

theorem sortByDate_perm (l : List CommitPlan) : (sortByDate l).Perm l := by
  induction l with
  | nil => simp [sortByDate]
  | cons x xs ih =>
    unfold sortByDate
    exact (insertByDate_perm x (sortByDate xs)).trans (ih.cons x)

theorem pairwise_insertByDate {x : CommitPlan} {l : List CommitPlan}
    (hl : l.Pairwise PlanOrder) (hx : ∀ y ∈ l, x.index < y.index) :
    (insertByDate x l).Pairwise PlanOrder := by
  induction l with
  | nil => simp [insertByDate]
  | cons y ys ih =>
    rw [List.pairwise_cons] at hl
    obtain ⟨hy, hys⟩ := hl
    unfold insertByDate
    by_cases h : y.date < x.date
    · rw [if_pos h]
      rw [List.pairwise_cons]
      refine ⟨?_, ih hys (fun z hz => hx z (List.mem_cons_of_mem _ hz))⟩
      intro z hz
      rcases mem_insertByDate.mp hz with rfl | hz'
      · exact Or.inl h
      · exact hy z hz'
    · rw [if_neg h]
      have hxy : x.date ≤ y.date := not_lt.mp h
      rw [List.pairwise_cons]
      refine ⟨?_, List.pairwise_cons.mpr ⟨hy, hys⟩⟩
      intro z hz
      rcases List.mem_cons.mp hz with rfl | hz'
      · rcases lt_or_eq_of_le hxy with hlt | heq
        · exact Or.inl hlt
        · exact Or.inr ⟨heq, hx z (List.mem_cons_self _ _)⟩
      · have hz_date : y.date ≤ z.date := (hy z hz').date_le
        rcases lt_or_eq_of_le (le_trans hxy hz_date) with hlt | heq
        · exact Or.inl hlt
        · exact Or.inr ⟨heq, hx z (List.mem_cons_of_mem _ hz')⟩

theorem sortByDate_pairwise {l : List CommitPlan}
    (h : l.Pairwise (fun a b => a.index < b.index)) :
    (sortByDate l).Pairwise PlanOrder := by
  induction l with
  | nil => simp [sortByDate]
  | cons x xs ih =>
    rw [List.pairwise_cons] at h
    obtain ⟨hx, hxs⟩ := h
    unfold sortByDate
    apply pairwise_insertByDate (ih hxs)
    intro y hy
    exact hx y ((sortByDate_perm xs).mem_iff.mp hy)

/-! ## The day loop: indices, membership, length -/

theorem genDays_index_ge (cfg : Config) (rnd : ℕ → ℚ) :
    ∀ (days : List ℕ) (p ci : ℕ), ∀ x ∈ genDays cfg rnd days p ci, ci ≤ x.index := by
  intro days
  induction days with
  | nil => intro p ci x hx; simp [genDays] at hx
  | cons day rest ih =>
    intro p ci x hx
    rw [genDays] at hx
    by_cases hskip : shouldSkipDay cfg.skipProbability (rnd p) = true
    · rw [if_pos hskip] at hx
      exact ih _ _ x hx
    · rw [if_neg hskip] at hx
      rcases List.mem_append.mp hx with h1 | h2
      · obtain ⟨i, _, rfl⟩ := List.mem_map.mp h1
        simp only [genCommit]
        omega
      · have := ih _ _ x h2
        omega

theorem genDays_index_pairwise (cfg : Config) (rnd : ℕ → ℚ) :
    ∀ (days : List ℕ) (p ci : ℕ),
    (genDays cfg rnd days p ci).Pairwise (fun a b => a.index < b.index) := by
  intro days
  induction days with
  | nil => intro p ci; simp [genDays]
  | cons day rest ih =>
    intro p ci
    rw [genDays]
    by_cases hskip : shouldSkipDay cfg.skipProbability (rnd p) = true
    · rw [if_pos hskip]
      exact ih _ _
    · rw [if_neg hskip]
      rw [List.pairwise_append]
      refine ⟨?_, ih _ _, ?_⟩
      · rw [List.pairwise_map]
        have := List.pairwise_lt_range (commitCountAt cfg rnd p)
        refine this.imp ?_
        intro i j hij
        simpa only [genCommit] using by omega
      · intro a ha b hb
        obtain ⟨i, hi, rfl⟩ := List.mem_map.mp ha
        have hb' := genDays_index_ge cfg rnd rest _ _ b hb
        have hi' := List.mem_range.mp hi
        simp only [genCommit]
        omega

/-- C1: every successfully built plan is sorted ascending by timestamp with
    ties broken by ascending sequenceIndex (the index assigned in generation
    order before the stable sort). -/
theorem generateCommitPlan_sorted (cfg : Config) (rnd : ℕ → ℚ)
    (plan : List CommitPlan) (h : generateCommitPlan cfg rnd = .ok plan) :
    plan.Pairwise PlanOrder := by
  unfold generateCommitPlan at h
  cases hd : getDaysInRange cfg.startDate cfg.endDate cfg.skipDays with
  | error e => rw [hd] at h; exact absurd h (by simp)
  | ok days =>
    rw [hd] at h
    cases h
    exact sortByDate_pairwise (genDays_index_pairwise cfg rnd days 0 0)

/-- Witness for C1: a concrete two-entry plan with a genuine timestamp tie;
    the smaller index comes first. -/
theorem generateCommitPlan_sorted_witness :
    ([⟨32400000, 0⟩, ⟨32400000, 1⟩] : List CommitPlan).Pairwise PlanOrder :=
  generateCommitPlan_sorted cfgTwoPerDay rndZero _ (by decide)

theorem validateDateRange_ok {s e : ℕ} (h : validateDateRange s e = .ok ()) :
    s ≤ e := by
  unfold validateDateRange at h
  by_cases hlt : e < s
  · rw [if_pos hlt] at h; exact absurd h (by simp)
  · omega

theorem getDaysInRange_mem {s e : ℕ} {skip : List ℕ} {days : List ℕ}
    (h : getDaysInRange s e skip = .ok days) :
    ∀ d ∈ days, s ≤ d ∧ d ≤ e ∧ skip.contains (getDay d) = false := by
  unfold getDaysInRange at h
  cases hv : validateDateRange s e with
  | error er => rw [hv] at h; exact absurd h (by simp)
  | ok u =>
    cases u
    have hse : s ≤ e := validateDateRange_ok hv
    rw [hv] at h
    cases h
    intro d hd
    obtain ⟨hmem, hpred⟩ := List.mem_filter.mp hd
    obtain ⟨i, hi, rfl⟩ := List.mem_map.mp hmem
    have hi' := List.mem_range.mp hi
    refine ⟨by omega, by omega, ?_⟩
    simpa using hpred

theorem genDays_mem_decomp (cfg : Config) (rnd : ℕ → ℚ) :
    ∀ (days : List ℕ) (p ci : ℕ), ∀ x ∈ genDays cfg rnd days p ci,
    ∃ day ∈ days, ∃ q idx, x = genCommit cfg day rnd q idx := by
  intro days
  induction days with
  | nil => intro p ci x hx; simp [genDays] at hx
  | cons day rest ih =>
    intro p ci x hx
    rw [genDays] at hx
    by_cases hskip : shouldSkipDay cfg.skipProbability (rnd p) = true
    · rw [if_pos hskip] at hx
      obtain ⟨d, hd, q, idx, hq⟩ := ih _ _ x hx
      exact ⟨d, List.mem_cons_of_mem _ hd, q, idx, hq⟩
    · rw [if_neg hskip] at hx
      rcases List.mem_append.mp hx with h1 | h2
      · obtain ⟨i, _, rfl⟩ := List.mem_map.mp h1
        exact ⟨day, List.mem_cons_self _ _, _, _, rfl⟩
      · obtain ⟨d, hd, q, idx, hq⟩ := ih _ _ x h2
        exact ⟨d, List.mem_cons_of_mem _ hd, q, idx, hq⟩

theorem floorRatMul_bounds {r : ℚ} (hr0 : 0 ≤ r) (hr1 : r < 1) {z : ℤ}
    (hz : 0 < z) : 0 ≤ floorRatMul r z ∧ floorRatMul r z < z :=
  ⟨floorRatMul_nonneg hr0 (le_of_lt hz), floorRatMul_lt hr1 hz⟩

/-- Every generated commit timestamp decomposes into its calendar day plus
    a time-of-day whose minute lies inside the configured window; seconds and
    milliseconds push it at most 59.999 s past the window end. -/
theorem genCommit_date_bounds (cfg : Config) (day : ℕ) (rnd : ℕ → ℚ)
    (p idx : ℕ) (hr : ValidRand rnd)
    (hw : minutesOf cfg.timeRangeStart ≤ minutesOf cfg.timeRangeEnd) :
    (day : ℤ) * 86400000 + (minutesOf cfg.timeRangeStart : ℤ) * 60000
      ≤ (genCommit cfg day rnd p idx).date
    ∧ (genCommit cfg day rnd p idx).date
      < (day : ℤ) * 86400000 + ((minutesOf cfg.timeRangeEnd : ℤ) + 1) * 60000 := by
  obtain ⟨hp0, hp1⟩ := hr p
  obtain ⟨hq0, hq1⟩ := hr (p + 1)
  obtain ⟨hm0, hm1⟩ := hr (p + 2)
  unfold genCommit generateRandomTime
  dsimp only
  have hwz : ((minutesOf cfg.timeRangeStart : ℤ)) ≤ (minutesOf cfg.timeRangeEnd : ℤ) := by
    exact_mod_cast hw
  obtain ⟨hmlo, hmhi⟩ := randomIntInRange_mem hp0 hp1 hwz
  set m := randomIntInRange (rnd p) (minutesOf cfg.timeRangeStart : ℤ)
    (minutesOf cfg.timeRangeEnd : ℤ) with hm
  obtain ⟨hs0, hs1⟩ := floorRatMul_bounds hq0 hq1 (show (0:ℤ) < 60 by norm_num)
  obtain ⟨hms0, hms1⟩ := floorRatMul_bounds hm0 hm1 (show (0:ℤ) < 1000 by norm_num)
  have hdm := Int.ediv_add_emod m 60
  constructor <;> omega

/-- The property C4 asserts of every plan entry: its timestamp is some
    in-range day at a time-of-day between the window start and end
    inclusive, seconds and milliseconds included. -/
def ClaimedWithinWindow (cfg : Config) (e : CommitPlan) : Prop :=
  ∃ day : ℕ, cfg.startDate ≤ day ∧ day ≤ cfg.endDate ∧
    cfg.skipDays.contains (getDay day) = false ∧
    (day : ℤ) * 86400000 + (minutesOf cfg.timeRangeStart : ℤ) * 60000 ≤ e.date ∧
    e.date ≤ (day : ℤ) * 86400000 + (minutesOf cfg.timeRangeEnd : ℤ) * 60000

/-- Counterexample to C4 as stated: with a 09:00–09:00 window and a seconds
    draw of 1/2, the single planned entry falls at 09:00:30, 30 s past the
    window end, so its time-of-day does not lie within
    [timeRange.start, timeRange.end]. -/
theorem claimedWithinWindow_counterexample :
    generateCommitPlan cfgOneDay rndHalfAtSec = .ok [⟨32430000, 0⟩]
    ∧ ¬ ClaimedWithinWindow cfgOneDay ⟨32430000, 0⟩ := by
  constructor
  · decide
  · rintro ⟨day, h1, h2, h3, h4, h5⟩
    have hday : day = 0 := Nat.le_zero.mp h2
    subst hday
    revert h5
    decide

/-- C4, amended: every entry of a successfully built plan (valid random
    stream, well-ordered time window) lies on a day inside
    [startDate, endDate] whose weekday is not skipped, at a time-of-day
    whose minute is within [timeRange.start, timeRange.end]; with the drawn
    seconds and milliseconds the timestamp is below end + 60 s. -/
theorem generateCommitPlan_day_and_window (cfg : Config) (rnd : ℕ → ℚ)
    (plan : List CommitPlan) (hr : ValidRand rnd)
    (hw : minutesOf cfg.timeRangeStart ≤ minutesOf cfg.timeRangeEnd)
    (h : generateCommitPlan cfg rnd = .ok plan) :
    ∀ e ∈ plan, ∃ day : ℕ,
      cfg.startDate ≤ day ∧ day ≤ cfg.endDate ∧
      cfg.skipDays.contains (getDay day) = false ∧
      (day : ℤ) * 86400000 + (minutesOf cfg.timeRangeStart : ℤ) * 60000 ≤ e.date ∧
      e.date < (day : ℤ) * 86400000 + ((minutesOf cfg.timeRangeEnd : ℤ) + 1) * 60000 := by
  unfold generateCommitPlan at h
  cases hd : getDaysInRange cfg.startDate cfg.endDate cfg.skipDays with
  | error er => rw [hd] at h; exact absurd h (by simp)
  | ok days =>
    rw [hd] at h
    cases h
    intro e he
    have he' := (sortByDate_perm _).mem_iff.mp he
    obtain ⟨day, hday, q, idx, rfl⟩ := genDays_mem_decomp cfg rnd days 0 0 e he'
    obtain ⟨hs, he2, hskip⟩ := getDaysInRange_mem hd day hday
    obtain ⟨hlo, hhi⟩ := genCommit_date_bounds cfg day rnd q idx hr hw
    exact ⟨day, hs, he2, hskip, hlo, hhi⟩

/-- Witness for the amended C4 on a concrete run, instantiated at the single
    entry of the plan. -/
theorem generateCommitPlan_day_and_window_witness :
    ∃ day : ℕ,
      cfgOneDay.startDate ≤ day ∧ day ≤ cfgOneDay.endDate ∧
      cfgOneDay.skipDays.contains (getDay day) = false ∧
      (day : ℤ) * 86400000 + (minutesOf cfgOneDay.timeRangeStart : ℤ) * 60000
        ≤ (CommitPlan.mk 32400000 0).date ∧
      (CommitPlan.mk 32400000 0).date
        < (day : ℤ) * 86400000 + ((minutesOf cfgOneDay.timeRangeEnd : ℤ) + 1) * 60000 :=
  generateCommitPlan_day_and_window cfgOneDay rndZero [⟨32400000, 0⟩]
    validRand_rndZero (by decide) (by decide) ⟨32400000, 0⟩
    (List.mem_singleton.mpr rfl)

theorem genDays_length_const (cfg : Config) (rnd : ℕ → ℚ) (k : ℕ)
    (hr : ValidRand rnd) (hp : cfg.skipProbability = 0)
    (hmin : cfg.commitsPerDay.min = k) (hmax : cfg.commitsPerDay.max = k) :
    ∀ (days : List ℕ) (p ci : ℕ),
    (genDays cfg rnd days p ci).length = days.length * k := by
  intro days
  induction days with
  | nil => intro p ci; simp [genDays]
  | cons day rest ih =>
    intro p ci
    rw [genDays]
    have hskip : shouldSkipDay cfg.skipProbability (rnd p) = false := by
      unfold shouldSkipDay
      rw [hp]
      simp [not_lt, (hr p).1]
    rw [hskip]
    simp only [Bool.false_eq_true, if_false]
    have hcount : commitCountAt cfg rnd p = k := by
      unfold commitCountAt
      rw [hmin, hmax, getRandomCommitCount_const (hr (p + 1)).1 (hr (p + 1)).2]
      simp
    rw [List.length_append, List.length_map, List.length_range, hcount, ih,
      List.length_cons]
    ring

theorem getDaysInRange_len_no_skip {s e : ℕ} {days : List ℕ}
    (h : getDaysInRange s e [] = .ok days) : days.length = e + 1 - s := by
  unfold getDaysInRange at h
  cases hv : validateDateRange s e with
  | error er => rw [hv] at h; exact absurd h (by simp)
  | ok u =>
    cases u
    rw [hv] at h
    cases h
    rw [List.filter_eq_self.mpr (by intro a _; simp)]
    rw [List.length_map, List.length_range]

/-- C8: with no skipped weekdays, zero skip probability and a constant
    commits-per-day k, the plan holds exactly one entry per commit per
    calendar day: D × k entries for D days in the inclusive range. -/
theorem generateCommitPlan_count (cfg : Config) (rnd : ℕ → ℚ)
    (plan : List CommitPlan) (k : ℕ) (hr : ValidRand rnd)
    (hp : cfg.skipProbability = 0) (hsd : cfg.skipDays = [])
    (hmin : cfg.commitsPerDay.min = k) (hmax : cfg.commitsPerDay.max = k)
    (h : generateCommitPlan cfg rnd = .ok plan) :
    plan.length = (cfg.endDate + 1 - cfg.startDate) * k := by
  unfold generateCommitPlan at h
  rw [hsd] at h
  cases hd : getDaysInRange cfg.startDate cfg.endDate [] with
  | error er => rw [hd] at h; exact absurd h (by simp)
  | ok days =>
    rw [hd] at h
    cases h
    rw [(sortByDate_perm _).length_eq]
    rw [genDays_length_const cfg rnd k hr hp hmin hmax days 0 0]
    rw [getDaysInRange_len_no_skip hd]

/-- Witness for C8: five days, one commit per day, exactly five entries. -/
theorem generateCommitPlan_count_witness :
    ([⟨32400000, 0⟩, ⟨118800000, 1⟩, ⟨205200000, 2⟩, ⟨291600000, 3⟩,
        ⟨378000000, 4⟩] : List CommitPlan).length
      = (cfgFiveDays.endDate + 1 - cfgFiveDays.startDate) * 1 :=
  generateCommitPlan_count cfgFiveDays rndZero _ 1 validRand_rndZero
    rfl rfl rfl rfl (by decide)

/-- C9: for every configuration whose estimate succeeds, with min ≤ max and
    skipProbability ≤ 1, the estimate satisfies min ≤ expected ≤ max. -/
theorem estimate_min_le_expected_le_max (cfg : Config) (est : Estimate)
    (hmm : cfg.commitsPerDay.min ≤ cfg.commitsPerDay.max)
    (hp1 : cfg.skipProbability ≤ 1)
    (h : estimateCommitCount cfg = .ok est) :
    est.min ≤ est.expected ∧ est.expected ≤ est.max := by
  unfold estimateCommitCount at h
  cases hd : getDaysInRange cfg.startDate cfg.endDate cfg.skipDays with
  | error e => rw [hd] at h; exact absurd h (by simp)
  | ok days =>
    rw [hd] at h
    cases h
    dsimp only
    have hq : (0 : ℚ) ≤ 1 - cfg.skipProbability := by linarith
    have hL : (0 : ℚ) ≤ (days.length : ℚ) := by positivity
    have hcc : ((cfg.commitsPerDay.min : ℚ)) ≤ (cfg.commitsPerDay.max : ℚ) := by
      exact_mod_cast hmm
    have key : 0 ≤ (1 - cfg.skipProbability) * ((days.length : ℚ))
        * ((cfg.commitsPerDay.max : ℚ) - (cfg.commitsPerDay.min : ℚ)) :=
      mul_nonneg (mul_nonneg hq hL) (sub_nonneg.mpr hcc)
    constructor
    · rw [floorOneMinusMulDiv_eq _ _ 1 one_ne_zero,
        floorOneMinusMulDiv_eq _ _ 2 two_ne_zero]
      apply Int.floor_le_floor
      push_cast
      nlinarith [key]
    · rw [floorOneMinusMulDiv_eq _ _ 1 one_ne_zero,
        floorOneMinusMulDiv_eq _ _ 2 two_ne_zero]
      apply Int.floor_le_floor
      push_cast
      nlinarith [key]

/-- Witness for C9 on a concrete configuration. -/
theorem estimate_min_le_expected_le_max_witness :
    (Estimate.mk 1 1 1).min ≤ (Estimate.mk 1 1 1).expected
    ∧ (Estimate.mk 1 1 1).expected ≤ (Estimate.mk 1 1 1).max :=
  estimate_min_le_expected_le_max cfgOneDay ⟨1, 1, 1⟩ (by decide) (by decide)
    (by decide)

/-! ## The execution engine -/

theorem execLoop_no_cancel (env : ExecEnv) (total : ℕ) :
    ∀ (pending i g : ℕ),
    (∀ j, i ≤ j → j < i + pending → env.cancelledAt j = false) →
    execLoop env total pending i g =
      { generatedCommits :=
          g + ((List.range' i pending).filter (fun j => env.commitOk j)).length
        errors := ((List.range' i pending).filter
          (fun j => !env.commitOk j)).map RunError.commitFailed
        commitCalls := List.range' i pending
        progressCalls := (List.range' i pending).map (fun j => (j + 1, total))
        cancelledExit := false } := by
  intro pending
  induction pending with
  | zero => intro i g h; simp [execLoop]
  | succ n ih =>
    intro i g h
    have hc : env.cancelledAt i = false := h i le_rfl (by omega)
    have hrest : ∀ j, i + 1 ≤ j → j < (i + 1) + n → env.cancelledAt j = false :=
      fun j h1 h2 => h j (by omega) (by omega)
    rw [execLoop, hc]
    simp only [Bool.false_eq_true, if_false]
    rw [List.range'_succ]
    by_cases hok : env.commitOk i = true
    · rw [if_pos hok, ih (i + 1) (g + 1) hrest]
      have hfc : List.filter (fun j => env.commitOk j) (i :: List.range' (i + 1) n)
          = i :: List.filter (fun j => env.commitOk j) (List.range' (i + 1) n) := by
        simp [List.filter_cons, hok]
      have hfc2 : List.filter (fun j => !env.commitOk j) (i :: List.range' (i + 1) n)
          = List.filter (fun j => !env.commitOk j) (List.range' (i + 1) n) := by
        simp [List.filter_cons, hok]
      rw [hfc, hfc2, List.map_cons, List.length_cons]
      have harith : ∀ L : ℕ, g + 1 + L = g + (L + 1) := fun L => by omega
      rw [harith]
    · have hok' : env.commitOk i = false := by
        cases hcase : env.commitOk i
        · rfl
        · exact absurd hcase hok
      rw [if_neg hok, ih (i + 1) g hrest]
      have hfc : List.filter (fun j => env.commitOk j) (i :: List.range' (i + 1) n)
          = List.filter (fun j => env.commitOk j) (List.range' (i + 1) n) := by
        simp [List.filter_cons, hok']
      have hfc2 : List.filter (fun j => !env.commitOk j) (i :: List.range' (i + 1) n)
          = i :: List.filter (fun j => !env.commitOk j) (List.range' (i + 1) n) := by
        simp [List.filter_cons, hok']
      rw [hfc, hfc2, List.map_cons, List.map_cons]

theorem execLoop_cancel_at (env : ExecEnv) (total k : ℕ)
    (hflag : ∀ j, env.cancelledAt j = decide (k ≤ j))
    (hok : ∀ j, j < k → env.commitOk j = true) :
    ∀ (pending i g : ℕ), i ≤ k → k < i + pending →
    execLoop env total pending i g =
      { generatedCommits := g + (k - i)
        errors := []
        commitCalls := List.range' i (k - i)
        progressCalls := (List.range' i (k - i)).map (fun j => (j + 1, total))
        cancelledExit := true } := by
  intro pending
  induction pending with
  | zero => intro i g h1 h2; omega
  | succ n ih =>
    intro i g h1 h2
    rw [execLoop]
    by_cases hik : i = k
    · subst hik
      rw [hflag i, decide_eq_true le_rfl]
      simp [execLoop, List.range']
    · have hiklt : i < k := lt_of_le_of_ne h1 hik
      rw [hflag i, decide_eq_false (by omega)]
      simp only [Bool.false_eq_true, if_false]
      rw [if_pos (hok i hiklt), ih (i + 1) (g + 1) (by omega) (by omega)]
      have hki : k - i = (k - (i + 1)) + 1 := by omega
      rw [hki, List.range'_succ, List.map_cons]
      have harith : g + 1 + (k - (i + 1)) = g + (k - (i + 1) + 1) := by omega
      rw [harith]

/-- C2: if cancellation is requested after k successful entries of a longer
    plan, generate stops with the USER_CANCELLED signal, the applied count is
    exactly k, createCommit was called exactly for the first k entries, and
    the engine performed no rollback. -/
theorem generate_cancel_after_k (self : CommitGenerator) (cfg : Config)
    (rnd : ℕ → ℚ) (env : ExecEnv) (plan : List CommitPlan) (k : ℕ)
    (henv : env.repoValid = true)
    (hplan : generateCommitPlan cfg rnd = .ok plan)
    (hk : k < plan.length)
    (hflag : ∀ j, env.cancelledAt j = decide (k ≤ j))
    (hok : ∀ j, j < k → env.commitOk j = true) :
    (generate self cfg rnd env).result = .error .USER_CANCELLED
    ∧ (generate self cfg rnd env).state.generatedCommits = k
    ∧ (generate self cfg rnd env).commitCalls = List.range k
    ∧ (generate self cfg rnd env).resetCalls = []
    ∧ (generate self cfg rnd env).pushCalls = 0 := by
  unfold generate
  rw [henv, hplan]
  simp only [Bool.not_true, Bool.false_eq_true, if_false]
  rw [if_neg (by omega)]
  rw [execLoop_cancel_at env plan.length k hflag hok plan.length 0 0
    (by omega) (by omega)]
  dsimp only
  rw [if_pos rfl]
  refine ⟨rfl, by dsimp only; omega, ?_, rfl, rfl⟩
  rw [List.range_eq_range']
  congr 1

/-- Witness for C2: five-entry plan, cancellation after two successes. -/
theorem generate_cancel_after_k_witness :
    (generate initGenerator cfgFiveDays rndZero envCancelAtTwo).result
        = .error .USER_CANCELLED
    ∧ (generate initGenerator cfgFiveDays rndZero envCancelAtTwo).state.generatedCommits = 2
    ∧ (generate initGenerator cfgFiveDays rndZero envCancelAtTwo).commitCalls = List.range 2
    ∧ (generate initGenerator cfgFiveDays rndZero envCancelAtTwo).resetCalls = []
    ∧ (generate initGenerator cfgFiveDays rndZero envCancelAtTwo).pushCalls = 0 :=
  generate_cancel_after_k initGenerator cfgFiveDays rndZero envCancelAtTwo
    [⟨32400000, 0⟩, ⟨118800000, 1⟩, ⟨205200000, 2⟩, ⟨291600000, 3⟩, ⟨378000000, 4⟩]
    2 rfl (by decide) (by decide) (fun j => rfl) (fun j _ => rfl)

/-- Counterexample to C5 as stated: on an empty plan the informational
    note is returned inside the errors list while success is true, so
    success does not hold iff the error list is empty. -/
theorem generate_success_iff_counterexample :
    (generate initGenerator cfgSkipAll rndZero envAllOk).result = .ok
      { success := true, totalCommits := 0, startDate := 0, endDate := 0
        errors := [.noCommitsNote] }
    ∧ ¬(∀ r, (generate initGenerator cfgSkipAll rndZero envAllOk).result = .ok r →
        (r.success = true ↔ r.errors = [])) := by
  refine ⟨by decide, fun hall => ?_⟩
  have h := (hall (GenerateResult.mk true 0 0 0 [.noCommitsNote]) (by decide)).mp rfl
  exact absurd h (by decide)

/-- C5, amended: an empty plan returns immediately with applied count 0,
    success = true and the informational note pushed onto the errors list;
    for a non-empty plan the returned success flag holds iff the error list
    is empty. -/
theorem generate_success_iff_errors (self : CommitGenerator) (cfg : Config)
    (rnd : ℕ → ℚ) (env : ExecEnv) (plan : List CommitPlan)
    (henv : env.repoValid = true)
    (hplan : generateCommitPlan cfg rnd = .ok plan) :
    (plan = [] →
      (generate self cfg rnd env).result = .ok
        { success := true, totalCommits := 0, startDate := cfg.startDate
          endDate := cfg.endDate, errors := [.noCommitsNote] })
    ∧ (plan ≠ [] → ∀ r, (generate self cfg rnd env).result = .ok r →
        (r.success = true ↔ r.errors = [])) := by
  unfold generate
  rw [henv, hplan]
  simp only [Bool.not_true, Bool.false_eq_true, if_false]
  constructor
  · intro hpe
    subst hpe
    simp
  · intro hne r hr
    rw [if_neg (by simpa using hne)] at hr
    by_cases hcan :
        (execLoop env plan.length plan.length 0 0).cancelledExit = true
    · rw [if_pos hcan] at hr
      exact absurd hr (by simp)
    · rw [if_neg hcan] at hr
      dsimp only at hr
      cases hr
      simp only [decide_eq_true_eq, List.length_eq_zero]

/-- Witness for the amended C5 on a concrete empty-plan run. -/
theorem generate_success_iff_errors_witness :
    (([] : List CommitPlan) = [] →
      (generate initGenerator cfgSkipAll rndZero envAllOk).result = .ok
        { success := true, totalCommits := 0, startDate := cfgSkipAll.startDate
          endDate := cfgSkipAll.endDate, errors := [.noCommitsNote] })
    ∧ (([] : List CommitPlan) ≠ [] → ∀ r,
        (generate initGenerator cfgSkipAll rndZero envAllOk).result = .ok r →
        (r.success = true ↔ r.errors = [])) :=
  generate_success_iff_errors initGenerator cfgSkipAll rndZero envAllOk []
    rfl (by decide)

/-- C6: with no cancellation and push disabled, a failed entry appends one
    error and does not bump the applied count, and the loop attempts every
    entry: the applied count is the number of successful entries, the error
    list records exactly the failed entries, and createCommit was called for
    every plan position. -/
theorem generate_per_entry_failure (self : CommitGenerator) (cfg : Config)
    (rnd : ℕ → ℚ) (env : ExecEnv) (plan : List CommitPlan)
    (henv : env.repoValid = true)
    (hplan : generateCommitPlan cfg rnd = .ok plan) (hne : plan ≠ [])
    (hnc : ∀ i, env.cancelledAt i = false) (hpush : cfg.autoPush = false) :
    (generate self cfg rnd env).result = .ok
      { success := decide ((((List.range plan.length).filter
            (fun i => !env.commitOk i)).map RunError.commitFailed).length = 0)
        totalCommits := ((List.range plan.length).filter
          (fun i => env.commitOk i)).length
        startDate := cfg.startDate, endDate := cfg.endDate
        errors := ((List.range plan.length).filter
          (fun i => !env.commitOk i)).map RunError.commitFailed }
    ∧ (generate self cfg rnd env).state.generatedCommits
        = ((List.range plan.length).filter (fun i => env.commitOk i)).length
    ∧ (generate self cfg rnd env).commitCalls = List.range plan.length := by
  rw [List.range_eq_range']
  unfold generate
  rw [henv, hplan]
  simp only [Bool.not_true, Bool.false_eq_true, if_false]
  rw [if_neg (by simpa using hne)]
  rw [execLoop_no_cancel env plan.length plan.length 0 0 (fun j _ _ => hnc j)]
  dsimp only
  rw [hpush]
  refine ⟨?_, ?_, ?_⟩ <;>
    simp [Bool.false_and, Bool.false_eq_true, if_false, List.append_nil,
      Nat.zero_add]

/-- Witness for C6: two entries, the first fails, the second succeeds. -/
theorem generate_per_entry_failure_witness :
    (generate initGenerator cfgTwoPerDay rndZero envFailFirst).result = .ok
      { success := decide ((((List.range
            ([⟨32400000, 0⟩, ⟨32400000, 1⟩] : List CommitPlan).length).filter
            (fun i => !envFailFirst.commitOk i)).map RunError.commitFailed).length = 0)
        totalCommits := ((List.range
            ([⟨32400000, 0⟩, ⟨32400000, 1⟩] : List CommitPlan).length).filter
          (fun i => envFailFirst.commitOk i)).length
        startDate := cfgTwoPerDay.startDate, endDate := cfgTwoPerDay.endDate
        errors := ((List.range
            ([⟨32400000, 0⟩, ⟨32400000, 1⟩] : List CommitPlan).length).filter
          (fun i => !envFailFirst.commitOk i)).map RunError.commitFailed }
    ∧ (generate initGenerator cfgTwoPerDay rndZero envFailFirst).state.generatedCommits
        = ((List.range ([⟨32400000, 0⟩, ⟨32400000, 1⟩] : List CommitPlan).length).filter
          (fun i => envFailFirst.commitOk i)).length
    ∧ (generate initGenerator cfgTwoPerDay rndZero envFailFirst).commitCalls
        = List.range ([⟨32400000, 0⟩, ⟨32400000, 1⟩] : List CommitPlan).length :=
  generate_per_entry_failure initGenerator cfgTwoPerDay rndZero envFailFirst
    [⟨32400000, 0⟩, ⟨32400000, 1⟩] rfl (by decide) (by decide)
    (fun i => rfl) rfl

/-- Counterexample to C7 as stated: when the first of two entries fails and
    the second succeeds, the progress call after the successful entry passes
    first argument 2 (its 1-based plan position) while the applied count at
    that moment is 1. -/
theorem generate_progress_counterexample :
    (generate initGenerator cfgTwoPerDay rndZero envFailFirst).progressCalls
        = [(1, 2), (2, 2)]
    ∧ (generate initGenerator cfgTwoPerDay rndZero envFailFirst).state.generatedCommits = 1
    ∧ ((2 : ℕ), (2 : ℕ)) ≠ ((1 : ℕ), (2 : ℕ)) := by
  decide

/-- C7, amended: with no cancellation, after every entry (successful or not)
    the progress sink receives the entry 1-based plan position as first
    argument — the number of entries attempted so far, not the applied
    count — and the total number of planned entries as second argument. -/
theorem generate_progress_positions (self : CommitGenerator) (cfg : Config)
    (rnd : ℕ → ℚ) (env : ExecEnv) (plan : List CommitPlan)
    (henv : env.repoValid = true)
    (hplan : generateCommitPlan cfg rnd = .ok plan) (hne : plan ≠ [])
    (hnc : ∀ i, env.cancelledAt i = false) :
    (generate self cfg rnd env).progressCalls
      = (List.range plan.length).map (fun i => (i + 1, plan.length)) := by
  rw [List.range_eq_range']
  unfold generate
  rw [henv, hplan]
  simp only [Bool.not_true, Bool.false_eq_true, if_false]
  rw [if_neg (by simpa using hne)]
  rw [execLoop_no_cancel env plan.length plan.length 0 0 (fun j _ _ => hnc j)]
  dsimp only
  simp only [Bool.false_eq_true, if_false]

/-- Witness for the amended C7 on a concrete two-entry run. -/
theorem generate_progress_positions_witness :
    (generate initGenerator cfgTwoPerDay rndZero envFailFirst).progressCalls
      = (List.range ([⟨32400000, 0⟩, ⟨32400000, 1⟩] : List CommitPlan).length).map
          (fun i => (i + 1, ([⟨32400000, 0⟩, ⟨32400000, 1⟩] : List CommitPlan).length)) :=
  generate_progress_positions initGenerator cfgTwoPerDay rndZero envFailFirst
    [⟨32400000, 0⟩, ⟨32400000, 1⟩] rfl (by decide) (by decide) (fun i => rfl)

/-- C10: generate outcome does not depend on the generator state it starts
    from — the cancelled flag and the applied count are both reset at the top
    of every run, so a cancel() issued before generate() begins is discarded
    and applied counts never carry over between runs. -/
theorem generate_initial_state_independent (self self' : CommitGenerator)
    (cfg : Config) (rnd : ℕ → ℚ) (env : ExecEnv) :
    generate self cfg rnd env = generate self' cfg rnd env := by
  cases self
  cases self'
  rfl

/-- Counterexample to C3 as stated: CommitGenerator.rollback with count 0 or
    -3 returns without error and performs no git reset, instead of failing
    with INVALID_CONFIG. -/
theorem rollback_zero_counterexample :
    (cgRollback initGenerator (some 0) true).result = .ok ()
    ∧ (cgRollback initGenerator (some (-3)) true).result = .ok ()
    ∧ (cgRollback initGenerator (some 0) true).resetCalls = []
    ∧ (cgRollback initGenerator (some (-3)) true).resetCalls = []
    ∧ (Except.ok () : Except ErrorCode Unit) ≠ .error .INVALID_CONFIG := by
  decide

/-- C3, amended: for count ≤ 0, GitService.rollback fails with
    INVALID_CONFIG and attempts no git reset, while CommitGenerator.rollback
    silently returns without error and without any VCS reset. -/
theorem rollback_nonpositive (self : CommitGenerator) (count : ℤ)
    (resetOk : Bool) (hc : count ≤ 0) :
    gitRollback count resetOk = (.error .INVALID_CONFIG, [])
    ∧ cgRollback self (some count) resetOk
        = { state := self, result := .ok (), resetCalls := [] } := by
  constructor
  · unfold gitRollback
    rw [if_pos hc]
  · unfold cgRollback
    simp only [Option.getD_some]
    rw [if_neg (by omega)]

/-- Witness for the amended C3 at count = -3. -/
theorem rollback_nonpositive_witness :
    gitRollback (-3) true = (.error .INVALID_CONFIG, [])
    ∧ cgRollback initGenerator (some (-3)) true
        = { state := initGenerator, result := .ok (), resetCalls := [] } :=
  rollback_nonpositive initGenerator (-3) true (by norm_num)

end AutoCommit
